import Mathlib

/-!
Verification development for the S3-backed pipeline storage of this
repository.  The definitions below are a shallow embedding of
`graphrag/index/storage/s3_pipeline_storage.py` (class `S3PipelineStorage`
and `_create_progress_status`) and of `graphrag/index/input/s3_text.py`
(function `load`).  The external S3 service (boto3) is modelled either as a
concrete key/value store (an association list of full keys to object
bodies) or, where a property quantifies over arbitrary backend responses,
as a function from full keys to `Except ClientError` results.  Regular
expression patterns are caller-supplied in the source, so they are
embedded as abstract functions: a key pattern maps an object key to
`none` (no match) or to its group dictionary, and a filter sub-pattern is
a predicate on the captured string.
-/

namespace GraphragS3

/-- Object bodies: a list of byte values. -/
abbrev Bytes := List Nat

/-- Scanner for Python `str.count(sub)` with a non-empty `sub`: counts
non-overlapping occurrences left to right.  `skip` is the number of
characters still covered by the previously accepted occurrence. -/
def countOccGo (pat : List Char) : List Char → Nat → Nat
  | [], _ => 0
  | _ :: rest, skip + 1 => countOccGo pat rest skip
  | c :: rest, 0 =>
      if pat.isPrefixOf (c :: rest) then 1 + countOccGo pat rest (pat.length - 1)
      else countOccGo pat rest 0

/-- Python `s.count(sub)`: non-overlapping occurrences; the empty needle
occurs `len(s) + 1` times. -/
def pyCount (s pat : String) : Nat :=
  if pat.data.isEmpty then s.data.length + 1 else countOccGo pat.data s.data 0

/-- Scanner for Python `s.replace(old, new, 1)` with a non-empty `old`:
replaces the leftmost occurrence, if any. -/
def replaceFirstGo (pat repl : List Char) : List Char → List Char
  | [] => []
  | c :: rest =>
      if pat.isPrefixOf (c :: rest) then repl ++ (c :: rest).drop pat.length
      else c :: replaceFirstGo pat repl rest

/-- Python `s.replace(old, new, 1)`.  With an empty `old`, Python inserts
`new` once at the front; otherwise the leftmost occurrence of `old` is
replaced by `new`. -/
def pyReplaceFirst (s pat repl : String) : String :=
  if pat.data.isEmpty then ⟨repl.data ++ s.data⟩
  else ⟨replaceFirstGo pat.data repl.data s.data⟩

/-- Key resolution used by `get`, `set`, `has` and `delete`:
`full_key = f"{self.base_prefix}/{key}" if self.base_prefix else key`. -/
def fullKeyOf (basePfx key : String) : String :=
  if basePfx = "" then key else basePfx ++ "/" ++ key

/-- Defensive duplicate-prefix normalization performed by `get` (and only
by `get`): `if full_key.count(self.base_prefix) > 1:` then
`full_key = full_key.replace(f"{self.base_prefix}/", "", 1)`. -/
def dedupFullKey (basePfx fullKey : String) : String :=
  if pyCount fullKey basePfx > 1 then pyReplaceFirst fullKey (basePfx ++ "/") ""
  else fullKey

/-- A botocore `ClientError`, reduced to the fields the code inspects:
`e.response["Error"]["Code"]` and `e.response["Error"]["Message"]`. -/
structure ClientError where
  code : String
  message : String
deriving DecidableEq, Repr

/-- The `NoSuchKey` error S3 reports for `get_object` on an absent key. -/
def noSuchKeyErr : ClientError := ⟨"NoSuchKey", "The specified key does not exist."⟩

/-- The S3 bucket contents: full object key to object body, most recent
write first. -/
abbrev S3Store := List (String × Bytes)

/-- First binding of a full key in the store. -/
def lookupKey : S3Store → String → Option Bytes
  | [], _ => none
  | (k, v) :: rest, key => if k = key then some v else lookupKey rest key

/-- Behaviour of `s3.get_object` against a concrete store: the body when
the key exists, a `NoSuchKey` client error otherwise. -/
def getObject (store : S3Store) (key : String) : Except ClientError Bytes :=
  match lookupKey store key with
  | some b => .ok b
  | none => .error noSuchKeyErr

/-- Behaviour of `s3.head_object` against a concrete store: unit on
success, a `404` client error when the key is absent. -/
def headObject (store : S3Store) (key : String) : Except ClientError Unit :=
  match lookupKey store key with
  | some _ => .ok ()
  | none => .error ⟨"404", "Not Found"⟩

/-- A value passed to `set`: Python `bytes` or `str` (the
`isinstance(value, bytes)` / `isinstance(value, str)` cases). -/
inductive PutValue where
  | bytes (b : Bytes)
  | str (s : String)
deriving DecidableEq, Repr

/-- `S3PipelineStorage.set`: resolve the full key (no duplicate-prefix
normalization) and `put_object` the raw bytes, encoding a `str` value
first.  `encode` stands for `value.encode(encoding or "utf-8")`. -/
def S3set (store : S3Store) (basePfx key : String) (v : PutValue)
    (encode : String → Bytes) : S3Store :=
  let fullKey := fullKeyOf basePfx key
  match v with
  | .bytes b => (fullKey, b) :: store
  | .str s => (fullKey, encode s) :: store

/-- Observable outcome of `S3PipelineStorage.get`: returned bytes,
returned decoded text, returned `None` (absence marker), or a re-raised
client error. -/
inductive GetResult where
  | bytes (b : Bytes)
  | text (s : String)
  | absent
  | raised (e : ClientError)
deriving DecidableEq, Repr

/-- `S3PipelineStorage.get`: resolve the full key, apply the defensive
duplicate-prefix normalization, call `get_object`; return bytes when
`as_bytes`, else decode (`decode` stands for
`data.decode(encoding or "utf-8")`); translate a `NoSuchKey` client error
into `None` and re-raise every other client error. -/
def S3get (backend : String → Except ClientError Bytes) (basePfx key : String)
    (asBytes : Bool) (decode : Bytes → String) : GetResult :=
  let fk := dedupFullKey basePfx (fullKeyOf basePfx key)
  match backend fk with
  | .ok data => if asBytes then .bytes data else .text (decode data)
  | .error e => if e.code = "NoSuchKey" then .absent else .raised e

/-- `S3PipelineStorage.has`: resolve the full key (no duplicate-prefix
normalization), `head_object`, and return `False` on any `ClientError`
whatsoever — the `except ClientError: return False` clause does not
inspect the error code. -/
def S3has (backend : String → Except ClientError Unit) (basePfx key : String) : Bool :=
  match backend (fullKeyOf basePfx key) with
  | .ok _ => true
  | .error _ => false

/-- `S3PipelineStorage.delete`: resolve the full key (no duplicate-prefix
normalization) and `delete_object` it from the store. -/
def S3delete (store : S3Store) (basePfx key : String) : S3Store :=
  store.filter (fun e => e.1 != fullKeyOf basePfx key)

/-- The per-instance state `S3PipelineStorage` actually retains: the
constructor stores only `bucket_name` and `base_prefix or ""`; the boto3
client is created from ambient credentials (`boto3.client("s3")`), so
connection parameters are process-wide, not per-instance. -/
structure S3Storage where
  bucket : Option String
  basePfx : String
deriving DecidableEq, Repr

/-- Result of `S3PipelineStorage.child`: `return self` (the very same
instance) or an `AttributeError` escaping the constructor call; `attr`
names the attribute whose lookup failed.  No constructor for a
successfully built fresh instance is needed: the construction branch
never completes (see `childConstructorArgs`). -/
inductive ChildResult where
  | same
  | raised (attr : String)
deriving DecidableEq, Repr

/-- Evaluation of the constructor call `S3PipelineStorage(...)` in
`child` (lines 125-131): its first keyword argument reads
`self.s3.meta.client.meta.config.credentials.access_key`, but `self.s3`
is a botocore client whose `meta` is a `ClientMeta` with no `client`
attribute (only boto3 resources have one), so the argument chain raises
`AttributeError` on `client` — for every prefix, before any instance is
constructed.  The computed `new_prefix` is received only to mirror the
source's evaluation order (line 124 runs first) and is dead thereafter. -/
def childConstructorArgs (_newPfx : String) : ChildResult := .raised "client"

/-- `S3PipelineStorage.child`: `if name is None: return self`; otherwise
build `new_prefix = f"{self.base_prefix}/{name}" if self.base_prefix else
name` (the empty-string name is not the `None` case) and attempt to
construct a new instance, which raises while evaluating the constructor
arguments. -/
def S3child (st : S3Storage) (name : Option String) : ChildResult :=
  match name with
  | none => .same
  | some n =>
      let newPfx := if st.basePfx = "" then n else st.basePfx ++ "/" ++ n
      childConstructorArgs newPfx

/-- A group dictionary as returned by `match.groupdict()`: group name to
captured substring, `none` for a named group that did not participate in
the match (Python `None`). -/
abbrev GroupDict := List (String × Option String)

/-- Python dict subscript lookup on a group dictionary: `none` models a
`KeyError` (the name is not a key at all). -/
def gdFind : GroupDict → String → Option (Option String)
  | [], _ => none
  | (k, v) :: rest, name => if k = name then some v else gdFind rest name

/-- An exception escaping the filter evaluation inside `find`. -/
inductive PyErr where
  | keyErr (name : String)
  | typeErr
deriving DecidableEq, Repr

/-- The filter argument `file_filter.items()`: group name paired with the
truth of `re.match(value, ·)` for its sub-pattern `value`. -/
abbrev FilterItems := List (String × (String → Bool))

/-- Evaluation of
`all(re.match(value, group[key]) for key, value in file_filter.items())`:
lazy left-to-right; `group[key]` raises `KeyError` when the filter names a
group absent from the dictionary, and `re.match(value, None)` raises
`TypeError` when the group did not participate in the match. -/
def checkFilterItems (group : GroupDict) : FilterItems → Except PyErr Bool
  | [] => .ok true
  | (name, sub) :: rest =>
      match gdFind group name with
      | none => .error (.keyErr name)
      | some none => .error .typeErr
      | some (some v) => if sub v then checkFilterItems group rest else .ok false

/-- A caller-supplied compiled pattern, embedded as its matching
behaviour: `file_pattern.match(key)` returning the group dictionary on a
match. -/
abbrev KeyPattern := String → Option GroupDict

/-- What `find` does with one object key. -/
inductive KeyResult where
  | yielded (entry : String × GroupDict)
  | filteredOut
  | errored (e : PyErr)
deriving DecidableEq, Repr

/-- The per-key decision of `find`: no pattern match counts as filtered;
on a match with no filter the entry is yielded; with a filter, the entry
is yielded when every filter item passes, filtered when some item fails,
and an exception propagates when a filter item names a missing or
non-participating group. -/
def classifyKey (pat : KeyPattern) (flt : Option FilterItems) (key : String) : KeyResult :=
  match pat key with
  | none => .filteredOut
  | some group =>
      match flt with
      | none => .yielded (key, group)
      | some items =>
          match checkFilterItems group items with
          | .error e => .errored e
          | .ok true => .yielded (key, group)
          | .ok false => .filteredOut

/-- The counters `num_loaded`, `num_filtered`, `num_total` of `find`. -/
structure FState where
  loaded : Nat
  filtered : Nat
  total : Nat
deriving DecidableEq, Repr

/-- Observable trace of one full consumption of the `find` generator:
entries yielded, the `(num_loaded, num_filtered, num_total)` argument of
each progress-callback invocation, the final counters, whether the
generator returned early on `max_count`, and the exception that escaped,
if any. -/
structure FAcc where
  yields : List (String × GroupDict)
  calls : List (Nat × Nat × Nat)
  fs : FState
  stopped : Bool
  err : Option PyErr
deriving DecidableEq, Repr

/-- Counters and trace at the start of a `find` invocation. -/
def initAcc : FAcc := ⟨[], [], ⟨0, 0, 0⟩, false, none⟩

/-- One iteration of the inner `for obj in page.get("Contents", [])` loop
of `find`: bump `num_total`, classify the key, on yield test
`max_count > 0 and num_loaded >= max_count` and return at once when it
holds (skipping the progress call), otherwise invoke the progress
callback (when supplied) with the current cumulative counters.  A
generator that already returned or raised does nothing further. -/
def stepKey (pat : KeyPattern) (flt : Option FilterItems) (maxCount : Int)
    (hasProg : Bool) (acc : FAcc) (key : String) : FAcc :=
  if acc.stopped || acc.err.isSome then acc
  else
    let total := acc.fs.total + 1
    match classifyKey pat flt key with
    | .errored e =>
        { acc with
          fs := { acc.fs with total := total }
          err := some e }
    | .yielded entry =>
        let loaded := acc.fs.loaded + 1
        let fs : FState := ⟨loaded, acc.fs.filtered, total⟩
        if maxCount > 0 ∧ (loaded : Int) ≥ maxCount then
          { acc with yields := acc.yields ++ [entry], fs := fs, stopped := true }
        else
          { acc with
            yields := acc.yields ++ [entry]
            calls := acc.calls ++ (if hasProg then [(loaded, fs.filtered, total)] else [])
            fs := fs }
    | .filteredOut =>
        let fs : FState := ⟨acc.fs.loaded, acc.fs.filtered + 1, total⟩
        { acc with
          fs := fs
          calls := acc.calls ++ (if hasProg then [(fs.loaded, fs.filtered, total)] else []) }

/-- One page of the paginated listing, processed key by key. -/
def stepPage (pat : KeyPattern) (flt : Option FilterItems) (maxCount : Int)
    (hasProg : Bool) (acc : FAcc) (page : List String) : FAcc :=
  page.foldl (stepKey pat flt maxCount hasProg) acc

/-- A full consumption of `S3PipelineStorage.find` over the pages the
paginator returns (each page is the list of object keys in its
`Contents`). -/
def runFind (pat : KeyPattern) (flt : Option FilterItems) (maxCount : Int)
    (hasProg : Bool) (pages : List (List String)) : FAcc :=
  pages.foldl (stepPage pat flt maxCount hasProg) initAcc

/-- Mirror of `_create_progress_status`, the value handed to the progress
callback. -/
structure ProgressStatus where
  totalItems : Nat
  completedItems : Nat
  description : String
deriving DecidableEq, Repr

/-- `_create_progress_status(num_loaded, num_filtered, num_total)`. -/
def createProgressStatus (numLoaded numFiltered numTotal : Nat) : ProgressStatus :=
  ⟨numTotal, numLoaded + numFiltered,
    toString numLoaded ++ " files loaded (" ++ toString numFiltered ++ " filtered)"⟩

/-- A row produced by the S3 text input `load` for one fetched file.  The
`id` (an md5 hash computed by the external `gen_md5_hash` utility) and the
`title` (the path basename) are derived fields left out of the model. -/
structure TextUnit where
  key : String
  group : GroupDict
  text : String
deriving DecidableEq, Repr

/-- An error aborting the S3 text input `load`: a propagated botocore
`ClientError` or the `ValueError` raised when no file matched. -/
inductive LoadErr where
  | client (e : ClientError)
  | valueErr (msg : String)
deriving DecidableEq, Repr

/-- Python `s.endswith(suffix)`. -/
def pyEndsWith (s suffix : String) : Bool :=
  suffix.data.isSuffixOf s.data

/-- The collection loop of `load` in `s3_text.py`: keep an object key when
it ends in `".txt"` and the file pattern matches it, paired with its
group dictionary. -/
def matchedTextFiles (pat : KeyPattern) (keys : List String) : List (String × GroupDict) :=
  keys.filterMap fun k =>
    if pyEndsWith k ".txt" then (pat k).map (fun g => (k, g)) else none

/-- The message of the `ValueError` raised by `load` when nothing
matched. -/
def noFilesMsg (bucket basePfx : String) : String :=
  "No text files found in S3 bucket " ++ bucket ++ " with prefix " ++ basePfx

/-- `load` from `s3_text.py`.  `listing` is the outcome of paginating the
bucket under the configured prefix (a `ClientError` there propagates out
of the surrounding `try`); `fetch k` is the outcome of `load_file` on key
`k`, with `none` standing for any exception — the per-file
`except Exception` clause logs a warning and skips the file.  When no key
ends in `".txt"` and matches the pattern, a `ValueError` naming the
bucket and prefix is raised instead of returning an empty frame. -/
def s3TextLoad (bucket basePfx : String) (pat : KeyPattern)
    (listing : Except ClientError (List String))
    (fetch : String → Option String) : Except LoadErr (List TextUnit) :=
  match listing with
  | .error e => .error (.client e)
  | .ok keys =>
      let files := matchedTextFiles pat keys
      if files.isEmpty then .error (.valueErr (noFilesMsg bucket basePfx))
      else .ok (files.filterMap fun kg => (fetch kg.1).map (fun t => ⟨kg.1, kg.2, t⟩))

/-! ### Helper lemmas about the `find` generator -/

/-- A generator that already returned early or raised processes no further
key. -/
theorem stepKey_stuck (pat : KeyPattern) (flt : Option FilterItems) (mc : Int) (hp : Bool)
    (acc : FAcc) (key : String) (h : acc.stopped = true ∨ acc.err.isSome = true) :
    stepKey pat flt mc hp acc key = acc := by
  unfold stepKey
  rcases h with h | h <;> simp [h]

/-- A stuck generator ignores any further list of keys. -/
theorem foldl_stepKey_stuck (pat : KeyPattern) (flt : Option FilterItems) (mc : Int)
    (hp : Bool) (ks : List String) (acc : FAcc)
    (h : acc.stopped = true ∨ acc.err.isSome = true) :
    ks.foldl (stepKey pat flt mc hp) acc = acc := by
  induction ks with
  | nil => rfl
  | cons k ks ih => rw [List.foldl_cons, stepKey_stuck pat flt mc hp acc k h, ih]

/-- If the generator is live after a step, it was live before it. -/
theorem stepKey_active (pat : KeyPattern) (flt : Option FilterItems) (mc : Int) (hp : Bool)
    (acc : FAcc) (key : String)
    (h1 : (stepKey pat flt mc hp acc key).stopped = false)
    (h2 : (stepKey pat flt mc hp acc key).err = none) :
    acc.stopped = false ∧ acc.err = none := by
  by_cases hs : acc.stopped = true
  · rw [stepKey_stuck pat flt mc hp acc key (Or.inl hs)] at h1
    rw [h1] at hs
    cases hs
  · by_cases he : acc.err.isSome = true
    · rw [stepKey_stuck pat flt mc hp acc key (Or.inr he)] at h2
      rw [h2] at he
      cases he
    · exact ⟨by simpa using hs, Option.not_isSome_iff_eq_none.mp (by simpa using he)⟩

/-- Processing page by page is the same as processing the concatenated
key listing. -/
theorem runFind_flatten (pat : KeyPattern) (flt : Option FilterItems) (mc : Int) (hp : Bool)
    (pages : List (List String)) :
    runFind pat flt mc hp pages = pages.flatten.foldl (stepKey pat flt mc hp) initAcc := by
  show pages.foldl (fun acc page => page.foldl (stepKey pat flt mc hp) acc) initAcc = _
  exact (List.foldl_flatten _ _ _).symm

/-- Step equation for a key whose filter evaluation raises. -/
theorem stepKey_errored (pat : KeyPattern) (flt : Option FilterItems) (mc : Int) (hp : Bool)
    (acc : FAcc) (k : String) (e : PyErr)
    (h1 : acc.stopped = false) (h2 : acc.err = none)
    (hcl : classifyKey pat flt k = .errored e) :
    stepKey pat flt mc hp acc k =
      { acc with fs := ⟨acc.fs.loaded, acc.fs.filtered, acc.fs.total + 1⟩, err := some e } := by
  unfold stepKey
  rw [h1, h2]
  simp [hcl]

/-- Step equation for a yielded key that reaches `max_count`: the
generator returns at once, skipping the progress call. -/
theorem stepKey_yield_stop (pat : KeyPattern) (flt : Option FilterItems) (mc : Int) (hp : Bool)
    (acc : FAcc) (k : String) (entry : String × GroupDict)
    (h1 : acc.stopped = false) (h2 : acc.err = none)
    (hcl : classifyKey pat flt k = .yielded entry)
    (hm : mc > 0 ∧ ((acc.fs.loaded + 1 : Nat) : Int) ≥ mc) :
    stepKey pat flt mc hp acc k =
      { acc with
        yields := acc.yields ++ [entry]
        fs := ⟨acc.fs.loaded + 1, acc.fs.filtered, acc.fs.total + 1⟩
        stopped := true } := by
  unfold stepKey
  rw [h1, h2]
  simp [hcl, hm]
  push_cast at hm
  omega

/-- Step equation for a yielded key below `max_count`: the entry is
yielded and the progress callback fires with the cumulative counters. -/
theorem stepKey_yield_go (pat : KeyPattern) (flt : Option FilterItems) (mc : Int) (hp : Bool)
    (acc : FAcc) (k : String) (entry : String × GroupDict)
    (h1 : acc.stopped = false) (h2 : acc.err = none)
    (hcl : classifyKey pat flt k = .yielded entry)
    (hm : ¬(mc > 0 ∧ ((acc.fs.loaded + 1 : Nat) : Int) ≥ mc)) :
    stepKey pat flt mc hp acc k =
      { acc with
        yields := acc.yields ++ [entry]
        calls := acc.calls ++
          (if hp then [(acc.fs.loaded + 1, acc.fs.filtered, acc.fs.total + 1)] else [])
        fs := ⟨acc.fs.loaded + 1, acc.fs.filtered, acc.fs.total + 1⟩ } := by
  unfold stepKey
  rw [h1, h2]
  simp [hcl, hm]
  push_cast at hm
  omega

/-- Step equation for a filtered key: only the counters move and the
progress callback fires. -/
theorem stepKey_filtered (pat : KeyPattern) (flt : Option FilterItems) (mc : Int) (hp : Bool)
    (acc : FAcc) (k : String)
    (h1 : acc.stopped = false) (h2 : acc.err = none)
    (hcl : classifyKey pat flt k = .filteredOut) :
    stepKey pat flt mc hp acc k =
      { acc with
        calls := acc.calls ++
          (if hp then [(acc.fs.loaded, acc.fs.filtered + 1, acc.fs.total + 1)] else [])
        fs := ⟨acc.fs.loaded, acc.fs.filtered + 1, acc.fs.total + 1⟩ } := by
  unfold stepKey
  rw [h1, h2]
  simp [hcl]

/-- One step preserves the `max_count` invariant: the yield list tracks
`num_loaded`, `num_loaded` never exceeds a positive `max_count`, and a
live generator is strictly below it. -/
theorem stepKey_loaded_inv (pat : KeyPattern) (flt : Option FilterItems) (hp : Bool)
    (mc : Int) (hmc : 0 < mc) (acc : FAcc) (k : String)
    (hlen : acc.yields.length = acc.fs.loaded)
    (hle : (acc.fs.loaded : Int) ≤ mc)
    (hlt : acc.stopped = false → (acc.fs.loaded : Int) < mc) :
    (stepKey pat flt mc hp acc k).yields.length = (stepKey pat flt mc hp acc k).fs.loaded ∧
    (((stepKey pat flt mc hp acc k).fs.loaded : Int) ≤ mc) ∧
    ((stepKey pat flt mc hp acc k).stopped = false →
      ((stepKey pat flt mc hp acc k).fs.loaded : Int) < mc) := by
  by_cases hg : acc.stopped = true ∨ acc.err.isSome = true
  · rw [stepKey_stuck pat flt mc hp acc k hg]
    exact ⟨hlen, hle, hlt⟩
  · push_neg at hg
    have h1 : acc.stopped = false := by simpa using hg.1
    have h2 : acc.err = none := Option.not_isSome_iff_eq_none.mp (by simpa using hg.2)
    have hlt' := hlt h1
    cases hcl : classifyKey pat flt k with
    | errored e =>
        rw [stepKey_errored pat flt mc hp acc k e h1 h2 hcl]
        exact ⟨hlen, hle, fun _ => hlt'⟩
    | filteredOut =>
        rw [stepKey_filtered pat flt mc hp acc k h1 h2 hcl]
        exact ⟨hlen, hle, fun _ => hlt'⟩
    | yielded entry =>
        by_cases hm : mc > 0 ∧ ((acc.fs.loaded + 1 : Nat) : Int) ≥ mc
        · rw [stepKey_yield_stop pat flt mc hp acc k entry h1 h2 hcl hm]
          refine ⟨by simp [hlen], by push_cast; omega, fun hfalse => by cases hfalse⟩
        · rw [stepKey_yield_go pat flt mc hp acc k entry h1 h2 hcl hm]
          push_cast at hm hle hlt' ⊢
          exact ⟨by simp [hlen], by omega, fun _ => by omega⟩

/-- The `max_count` invariant holds along any key list. -/
theorem foldl_stepKey_loaded_inv (pat : KeyPattern) (flt : Option FilterItems) (hp : Bool)
    (mc : Int) (hmc : 0 < mc) (ks : List String) (acc : FAcc)
    (hlen : acc.yields.length = acc.fs.loaded)
    (hle : (acc.fs.loaded : Int) ≤ mc)
    (hlt : acc.stopped = false → (acc.fs.loaded : Int) < mc) :
    (ks.foldl (stepKey pat flt mc hp) acc).yields.length =
      (ks.foldl (stepKey pat flt mc hp) acc).fs.loaded ∧
    (((ks.foldl (stepKey pat flt mc hp) acc).fs.loaded : Int) ≤ mc) := by
  induction ks generalizing acc with
  | nil => exact ⟨hlen, hle⟩
  | cons k ks ih =>
      obtain ⟨h1, h2, h3⟩ := stepKey_loaded_inv pat flt hp mc hmc acc k hlen hle hlt
      rw [List.foldl_cons]
      exact ih (stepKey pat flt mc hp acc k) h1 h2 h3

/-- Coherence of the progress-call trace with the counters: one call per
processed key, the reported totals run `1, 2, …, num_total`, every call
reports `num_loaded + num_filtered = num_total`, and the counters
themselves sum up. -/
def callsInv (acc : FAcc) : Prop :=
  acc.calls.length = acc.fs.total ∧
  acc.calls.map (fun c => c.2.2) = List.range' 1 acc.fs.total ∧
  (∀ c ∈ acc.calls, c.1 + c.2.1 = c.2.2) ∧
  acc.fs.loaded + acc.fs.filtered = acc.fs.total

/-- One step with the progress callback supplied preserves `callsInv` as
long as the generator stays live. -/
theorem stepKey_calls_inv (pat : KeyPattern) (flt : Option FilterItems) (mc : Int)
    (acc : FAcc) (k : String)
    (h : acc.stopped = false ∧ acc.err = none → callsInv acc)
    (hs : (stepKey pat flt mc true acc k).stopped = false)
    (he : (stepKey pat flt mc true acc k).err = none) :
    callsInv (stepKey pat flt mc true acc k) := by
  obtain ⟨h1, h2⟩ := stepKey_active pat flt mc true acc k hs he
  obtain ⟨q1, q2, q3, q4⟩ := h ⟨h1, h2⟩
  cases hcl : classifyKey pat flt k with
  | errored e =>
      rw [stepKey_errored pat flt mc true acc k e h1 h2 hcl] at he
      simp at he
  | yielded entry =>
      by_cases hm : mc > 0 ∧ ((acc.fs.loaded + 1 : Nat) : Int) ≥ mc
      · rw [stepKey_yield_stop pat flt mc true acc k entry h1 h2 hcl hm] at hs
        simp at hs
      · rw [stepKey_yield_go pat flt mc true acc k entry h1 h2 hcl hm]
        refine ⟨by simp [q1], ?_, ?_, by simp; omega⟩
        · simp only [if_pos rfl, List.map_append, q2, List.map_cons, List.map_nil]
          rw [List.range'_1_concat]
          simp [Nat.add_comm]
        · intro c hc
          simp at hc
          rcases hc with hc | hc
          · exact q3 c hc
          · subst hc; simp; omega
  | filteredOut =>
      rw [stepKey_filtered pat flt mc true acc k h1 h2 hcl]
      refine ⟨by simp [q1], ?_, ?_, by simp; omega⟩
      · simp only [if_pos rfl, List.map_append, q2, List.map_cons, List.map_nil]
        rw [List.range'_1_concat]
        simp [Nat.add_comm]
      · intro c hc
        simp at hc
        rcases hc with hc | hc
        · exact q3 c hc
        · subst hc; simp; omega

/-- The progress-call invariant holds along any key list while the
generator stays live. -/
theorem foldl_stepKey_calls_inv (pat : KeyPattern) (flt : Option FilterItems) (mc : Int)
    (ks : List String) (acc : FAcc)
    (h : acc.stopped = false ∧ acc.err = none → callsInv acc)
    (hs : (ks.foldl (stepKey pat flt mc true) acc).stopped = false)
    (he : (ks.foldl (stepKey pat flt mc true) acc).err = none) :
    callsInv (ks.foldl (stepKey pat flt mc true) acc) := by
  induction ks generalizing acc with
  | nil => exact h ⟨hs, he⟩
  | cons k ks ih =>
      rw [List.foldl_cons] at hs he ⊢
      exact ih (stepKey pat flt mc true acc k)
        (fun hl => stepKey_calls_inv pat flt mc acc k h hl.1 hl.2) hs he

/-! ### Claim theorems -/

/-- C5: for every positive `max_count = N`, `find` yields at most `N`
entries even when more keys match, and upon yielding the `N`-th entry the
entire scan terminates immediately: appending further pages to the
listing, or further keys to the current page, leaves the whole observable
trace unchanged (no further pages fetched, no further keys processed). -/
theorem find_max_count (pat : KeyPattern) (flt : Option FilterItems) (hp : Bool)
    (pages : List (List String)) (mc : Int) (hmc : 0 < mc) :
    (runFind pat flt mc hp pages).yields.length ≤ mc.toNat ∧
    ((runFind pat flt mc hp pages).stopped = true →
      ∀ extra, runFind pat flt mc hp (pages ++ extra) = runFind pat flt mc hp pages) ∧
    (∀ ps pg, (runFind pat flt mc hp (ps ++ [pg])).stopped = true →
      ∀ more, runFind pat flt mc hp (ps ++ [pg ++ more]) = runFind pat flt mc hp (ps ++ [pg])) := by
  refine ⟨?_, ?_, ?_⟩
  · obtain ⟨hlen, hle⟩ := foldl_stepKey_loaded_inv pat flt hp mc hmc pages.flatten initAcc
      rfl (by simpa using hmc.le) (fun _ => by simpa using hmc)
    rw [runFind_flatten]
    omega
  · intro hstop extra
    rw [runFind_flatten pat flt mc hp (pages ++ extra), List.flatten_append,
      List.foldl_append, ← runFind_flatten pat flt mc hp pages]
    exact foldl_stepKey_stuck pat flt mc hp extra.flatten _ (Or.inl hstop)
  · intro ps pg hstop more
    have h2 : runFind pat flt mc hp (ps ++ [pg]) =
        (ps.flatten ++ pg).foldl (stepKey pat flt mc hp) initAcc := by
      rw [runFind_flatten]
      congr 1
      simp
    have h1 : runFind pat flt mc hp (ps ++ [pg ++ more]) =
        ((ps.flatten ++ pg) ++ more).foldl (stepKey pat flt mc hp) initAcc := by
      rw [runFind_flatten]
      congr 1
      simp
    rw [h1, List.foldl_append, ← h2]
    rw [h2] at hstop
    rw [h2]
    exact foldl_stepKey_stuck pat flt mc hp more _ (Or.inl hstop)

/-- Witness for C5: a match-everything pattern over two pages with
`max_count = 1` yields at most one entry. -/
theorem find_max_count_w :
    (runFind (fun _ => some ([] : GroupDict)) none 1 false [["a"], ["b"]]).yields.length ≤
      (1 : Int).toNat :=
  (find_max_count (fun _ => some ([] : GroupDict)) none false [["a"], ["b"]] 1 (by decide)).1

/-- A fresh `find` invocation satisfies the progress-call invariant. -/
theorem callsInv_init : callsInv initAcc := by
  refine ⟨rfl, rfl, ?_, rfl⟩
  intro c hc
  simp [initAcc] at hc

/-- C4 counterexample: with a single listing page containing two matching
object keys, the progress callback is invoked twice — the call sits
inside the inner per-object loop, so it fires after every key, not once
per fully processed page as the claim states. -/
theorem find_progress_not_per_page :
    (runFind (fun _ => some ([] : GroupDict)) none (-1) true [["a", "b"]]).calls =
      [(1, 0, 1), (2, 0, 2)] ∧ [["a", "b"]].length = 1 := by
  constructor
  · decide
  · rfl

/-- C4 amended: when the progress callback is provided and the scan
neither returns early on `max_count` nor raises from the filter, the
callback is invoked exactly once after each processed object key (so
`num_total` invocations in all, not once per page); the `i`-th invocation
reports running total `i`, and every invocation reports cumulative counts
satisfying `num_loaded + num_filtered = num_total`. -/
theorem find_progress_per_key (pat : KeyPattern) (flt : Option FilterItems) (mc : Int)
    (pages : List (List String))
    (hstop : (runFind pat flt mc true pages).stopped = false)
    (herr : (runFind pat flt mc true pages).err = none) :
    (runFind pat flt mc true pages).calls.length = (runFind pat flt mc true pages).fs.total ∧
    (runFind pat flt mc true pages).calls.map (fun c => c.2.2) =
      List.range' 1 (runFind pat flt mc true pages).fs.total ∧
    ∀ c ∈ (runFind pat flt mc true pages).calls, c.1 + c.2.1 = c.2.2 := by
  rw [runFind_flatten] at hstop herr ⊢
  obtain ⟨q1, q2, q3, _⟩ := foldl_stepKey_calls_inv pat flt mc pages.flatten initAcc
    (fun _ => callsInv_init) hstop herr
  exact ⟨q1, q2, q3⟩

/-- Witness for C4: a concrete one-page scan where one key matches and one
does not; the callback fires once per key. -/
theorem find_progress_per_key_w :
    (runFind (fun k => if k = "a" then some ([] : GroupDict) else none) none (-1) true
        [["a", "b"]]).calls.length =
      (runFind (fun k => if k = "a" then some ([] : GroupDict) else none) none (-1) true
        [["a", "b"]]).fs.total :=
  (find_progress_per_key (fun k => if k = "a" then some ([] : GroupDict) else none) none (-1)
    [["a", "b"]] (by decide) (by decide)).1

/-- A yielded entry carries the object key it was classified from. -/
theorem classifyKey_yielded_fst (pat : KeyPattern) (flt : Option FilterItems) (k : String)
    (entry : String × GroupDict) (h : classifyKey pat flt k = .yielded entry) :
    entry.1 = k := by
  cases hpk : pat k with
  | none => simp [classifyKey, hpk] at h
  | some g =>
      cases flt with
      | none =>
          simp [classifyKey, hpk] at h
          rw [← h]
      | some items =>
          cases hc : checkFilterItems g items with
          | error e => simp [classifyKey, hpk, hc] at h
          | ok b =>
              cases b
              · simp [classifyKey, hpk, hc] at h
              · simp [classifyKey, hpk, hc] at h
                rw [← h]

/-- Everything the `find` generator ever yields was classified as a
yield. -/
theorem foldl_stepKey_yields_classified (pat : KeyPattern) (flt : Option FilterItems)
    (mc : Int) (hp : Bool) (ks : List String) (acc : FAcc)
    (h : ∀ e ∈ acc.yields, classifyKey pat flt e.1 = .yielded e) :
    ∀ e ∈ (ks.foldl (stepKey pat flt mc hp) acc).yields,
      classifyKey pat flt e.1 = .yielded e := by
  induction ks generalizing acc with
  | nil => exact h
  | cons k ks ih =>
      rw [List.foldl_cons]
      refine ih _ ?_
      by_cases hg : acc.stopped = true ∨ acc.err.isSome = true
      · rw [stepKey_stuck pat flt mc hp acc k hg]; exact h
      · push_neg at hg
        have h1 : acc.stopped = false := by simpa using hg.1
        have h2 : acc.err = none := Option.not_isSome_iff_eq_none.mp (by simpa using hg.2)
        cases hcl : classifyKey pat flt k with
        | errored e =>
            rw [stepKey_errored pat flt mc hp acc k e h1 h2 hcl]
            exact h
        | filteredOut =>
            rw [stepKey_filtered pat flt mc hp acc k h1 h2 hcl]
            exact h
        | yielded entry =>
            have hk := classifyKey_yielded_fst pat flt k entry hcl
            have hyld : ∀ e ∈ acc.yields ++ [entry], classifyKey pat flt e.1 = .yielded e := by
              intro e he
              rcases List.mem_append.mp he with he | he
              · exact h e he
              · rw [List.mem_singleton] at he
                subst he
                rw [hk]
                exact hcl
            by_cases hm : mc > 0 ∧ ((acc.fs.loaded + 1 : Nat) : Int) ≥ mc
            · rw [stepKey_yield_stop pat flt mc hp acc k entry h1 h2 hcl hm]
              exact hyld
            · rw [stepKey_yield_go pat flt mc hp acc k entry h1 h2 hcl hm]
              exact hyld

/-- When no key of the listing makes the filter evaluation raise, the
`find` generator finishes without an exception. -/
theorem foldl_stepKey_no_error (pat : KeyPattern) (flt : Option FilterItems) (mc : Int)
    (hp : Bool) (ks : List String) (acc : FAcc) (hacc : acc.err = none)
    (hks : ∀ k ∈ ks, ∀ e, classifyKey pat flt k ≠ .errored e) :
    (ks.foldl (stepKey pat flt mc hp) acc).err = none := by
  induction ks generalizing acc with
  | nil => exact hacc
  | cons k ks ih =>
      rw [List.foldl_cons]
      refine ih _ ?_ (fun k' hk' => hks k' (List.mem_cons_of_mem _ hk'))
      by_cases hg : acc.stopped = true ∨ acc.err.isSome = true
      · rw [stepKey_stuck pat flt mc hp acc k hg]; exact hacc
      · push_neg at hg
        have h1 : acc.stopped = false := by simpa using hg.1
        have h2 : acc.err = none := Option.not_isSome_iff_eq_none.mp (by simpa using hg.2)
        cases hcl : classifyKey pat flt k with
        | errored e => exact absurd hcl (hks k (List.mem_cons_self _ _) e)
        | filteredOut => rw [stepKey_filtered pat flt mc hp acc k h1 h2 hcl]; exact h2
        | yielded entry =>
            by_cases hm : mc > 0 ∧ ((acc.fs.loaded + 1 : Nat) : Int) ≥ mc
            · rw [stepKey_yield_stop pat flt mc hp acc k entry h1 h2 hcl hm]; exact h2
            · rw [stepKey_yield_go pat flt mc hp acc k entry h1 h2 hcl hm]; exact h2

/-- With a non-positive `max_count` and no filter exception, the scan
stays live and `num_filtered` counts exactly the keys classified as
filtered. -/
theorem foldl_stepKey_filtered_count (pat : KeyPattern) (flt : Option FilterItems)
    (hp : Bool) (mc : Int) (hmc : mc ≤ 0) (ks : List String) (acc : FAcc)
    (h1 : acc.stopped = false) (h2 : acc.err = none)
    (hks : ∀ k ∈ ks, ∀ e, classifyKey pat flt k ≠ .errored e) :
    (ks.foldl (stepKey pat flt mc hp) acc).fs.filtered =
      acc.fs.filtered +
        (ks.filter (fun k => decide (classifyKey pat flt k = .filteredOut))).length ∧
    (ks.foldl (stepKey pat flt mc hp) acc).stopped = false ∧
    (ks.foldl (stepKey pat flt mc hp) acc).err = none := by
  induction ks generalizing acc with
  | nil => exact ⟨by simp, h1, h2⟩
  | cons k ks ih =>
      rw [List.foldl_cons]
      cases hcl : classifyKey pat flt k with
      | errored e => exact absurd hcl (hks k (List.mem_cons_self _ _) e)
      | filteredOut =>
          have hstep := stepKey_filtered pat flt mc hp acc k h1 h2 hcl
          obtain ⟨c1, c2, c3⟩ := ih (stepKey pat flt mc hp acc k)
            (by rw [hstep]; exact h1) (by rw [hstep]; exact h2)
            (fun k' hk' => hks k' (List.mem_cons_of_mem _ hk'))
          refine ⟨?_, c2, c3⟩
          rw [c1, hstep, List.filter_cons]
          simp [hcl]
          omega
      | yielded entry =>
          have hm : ¬(mc > 0 ∧ ((acc.fs.loaded + 1 : Nat) : Int) ≥ mc) :=
            fun hcon => absurd hcon.1 (by omega)
          have hstep := stepKey_yield_go pat flt mc hp acc k entry h1 h2 hcl hm
          obtain ⟨c1, c2, c3⟩ := ih (stepKey pat flt mc hp acc k)
            (by rw [hstep]; exact h1) (by rw [hstep]; exact h2)
            (fun k' hk' => hks k' (List.mem_cons_of_mem _ hk'))
          refine ⟨?_, c2, c3⟩
          rw [c1, hstep, List.filter_cons]
          simp [hcl]

/-- When every filter entry names a group that is present and
participating, the filter evaluation cannot raise. -/
theorem checkFilterItems_no_error (g : GroupDict) (items : FilterItems)
    (h : ∀ nf ∈ items, gdFind g nf.1 ≠ none ∧ gdFind g nf.1 ≠ some none) :
    ∃ b, checkFilterItems g items = .ok b := by
  induction items with
  | nil => exact ⟨true, rfl⟩
  | cons nf rest ih =>
      obtain ⟨name, sub⟩ := nf
      obtain ⟨hn, hs⟩ := h (name, sub) (List.mem_cons_self _ _)
      cases hg : gdFind g name with
      | none => exact absurd hg hn
      | some ov =>
          cases ov with
          | none => exact absurd hg hs
          | some v =>
              by_cases hv : sub v = true
              · obtain ⟨b, hb⟩ := ih (fun nf' hnf' => h nf' (List.mem_cons_of_mem _ hnf'))
                refine ⟨b, ?_⟩
                simp [checkFilterItems, hg, hv, hb]
              · refine ⟨false, ?_⟩
                simp [checkFilterItems, hg, hv]

/-- C3 counterexample: a key matching the primary pattern, scanned with a
filter naming a capture group absent from the group dictionary
(`file_filter = \x7b"month": …\x7d` against groups `\x7b"year": …\x7d`),
makes `find` raise a `KeyError` at `group[key]` — the entry is not
silently counted as filtered, contradicting the claim that a missing
group never causes an error. -/
theorem find_missing_filter_group_raises :
    (runFind (fun k => if k = "a.txt" then some [("year", some "2023")] else none)
        (some [("month", fun _ => true)]) (-1) false [["a.txt"]]).err =
      some (.keyErr "month") ∧
    (runFind (fun k => if k = "a.txt" then some [("year", some "2023")] else none)
        (some [("month", fun _ => true)]) (-1) false [["a.txt"]]).yields = [] := by
  exact ⟨by decide, by decide⟩

/-- C3 amended: provided every filter entry names a capture group that is
present and participating in each matched key's group dictionary, a key
matching the primary pattern whose captured groups fail the filter is
skipped without error: the scan raises nothing, the key is never yielded,
and (when `max_count` is non-positive, so the scan is not cut short)
`num_filtered` counts exactly the keys classified as filtered.  When a
filter entry names a missing or non-participating group the scan instead
raises (`KeyError` / `TypeError`), as the counterexample shows. -/
theorem find_filter_mismatch_skipped (pat : KeyPattern) (items : FilterItems)
    (mc : Int) (hp : Bool) (pages : List (List String))
    (hcov : ∀ k ∈ pages.flatten, ∀ g, pat k = some g →
      ∀ nf ∈ items, gdFind g nf.1 ≠ none ∧ gdFind g nf.1 ≠ some none) :
    (runFind pat (some items) mc hp pages).err = none ∧
    (∀ k g, k ∈ pages.flatten → pat k = some g →
      checkFilterItems g items = .ok false →
      k ∉ (runFind pat (some items) mc hp pages).yields.map Prod.fst) ∧
    (mc ≤ 0 →
      (runFind pat (some items) mc hp pages).fs.filtered =
        (pages.flatten.filter
          (fun k => decide (classifyKey pat (some items) k = .filteredOut))).length) := by
  have hnoerr : ∀ k ∈ pages.flatten, ∀ e, classifyKey pat (some items) k ≠ .errored e := by
    intro k hk e
    cases hpk : pat k with
    | none => simp [classifyKey, hpk]
    | some g =>
        obtain ⟨b, hb⟩ := checkFilterItems_no_error g items (hcov k hk g hpk)
        cases b <;> simp [classifyKey, hpk, hb]
  refine ⟨?_, ?_, ?_⟩
  · rw [runFind_flatten]
    exact foldl_stepKey_no_error pat (some items) mc hp pages.flatten initAcc rfl hnoerr
  · intro k g hk hg hfail hmem
    rw [runFind_flatten] at hmem
    rw [List.mem_map] at hmem
    obtain ⟨e, he, hek⟩ := hmem
    have hcls := foldl_stepKey_yields_classified pat (some items) mc hp pages.flatten initAcc
      (fun e' he' => absurd he' (by intro hfalse; cases hfalse)) e he
    rw [hek] at hcls
    have hfo : classifyKey pat (some items) k = .filteredOut := by
      simp [classifyKey, hg, hfail]
    rw [hfo] at hcls
    cases hcls
  · intro hmc
    rw [runFind_flatten]
    obtain ⟨c1, _, _⟩ := foldl_stepKey_filtered_count pat (some items) hp mc hmc
      pages.flatten initAcc rfl rfl hnoerr
    rw [c1]
    simp [initAcc]

/-- Witness for C3 amended: a key whose `year` group is present but fails
the `year = 2022` filter is never yielded and the scan does not raise. -/
theorem find_filter_mismatch_skipped_w :
    "a.txt" ∉ ((runFind (fun k => if k = "a.txt" then some [("year", some "2023")] else none)
        (some [("year", fun v => v == "2022")]) (-1) true [["a.txt"]]).yields.map
          Prod.fst) := by
  refine (find_filter_mismatch_skipped
      (fun k => if k = "a.txt" then some [("year", some "2023")] else none)
      [("year", fun v => v == "2022")] (-1) true [["a.txt"]] ?_).2.1
    "a.txt" [("year", some "2023")] (by decide) (by decide) rfl
  intro k hk g hg
  have hk' : k = "a.txt" := by simpa using hk
  subst hk'
  simp at hg
  subst hg
  decide

/-- C6: `get` returns the absence marker (Python `None`), not an error,
when the backend reports a `NoSuchKey` condition for the resolved key,
and re-raises any other client error to the caller. -/
theorem get_absent_or_propagates (backend : String → Except ClientError Bytes)
    (basePfx key : String) (asBytes : Bool) (decode : Bytes → String) (e : ClientError)
    (hb : backend (dedupFullKey basePfx (fullKeyOf basePfx key)) = .error e) :
    (e.code = "NoSuchKey" → S3get backend basePfx key asBytes decode = .absent) ∧
    (e.code ≠ "NoSuchKey" → S3get backend basePfx key asBytes decode = .raised e) := by
  constructor <;> intro hc <;> simp [S3get, hb, hc]

/-- Witness for C6: a `get` against a backend answering `NoSuchKey`
returns the absence marker. -/
theorem get_absent_or_propagates_w :
    S3get (fun _ => .error noSuchKeyErr) "docs" "k" true (fun _ => "") = .absent :=
  (get_absent_or_propagates (fun _ => .error noSuchKeyErr) "docs" "k" true
    (fun _ => "") noSuchKeyErr rfl).1 rfl

/-- C7 counterexample: `child("")` on an instance with prefix `"docs"`
does not return the same instance — `if name is None` lets the empty
string through to the construction branch — and `child("a")` does not
return a new scoped instance either: both raise `AttributeError` while
evaluating the constructor arguments. -/
theorem child_never_returns_fresh :
    S3child ⟨some "bucket", "docs"⟩ (some "") ≠ .same ∧
    S3child ⟨some "bucket", "docs"⟩ (some "") = .raised "client" ∧
    S3child ⟨some "bucket", "docs"⟩ (some "a") = .raised "client" := by
  refine ⟨by decide, by decide, by decide⟩

/-- C7 amended: `child` returns the same instance only for an absent
(`None`) name; for every string name — the empty string included — it
falls through to the construction branch, which raises `AttributeError`
(botocore's `ClientMeta` has no `client` attribute) before any instance
is built, so a fresh child instance is never returned. -/
theorem child_none_or_raises (st : S3Storage) (n : String) :
    S3child st none = .same ∧
    S3child st (some n) = .raised "client" :=
  ⟨rfl, rfl⟩

/-- C8 counterexample: `head_object` failing with an access-denied client
error makes `has` return `false`; the blanket `except ClientError` clause
swallows authorization failures instead of raising them as the claim
states. -/
theorem has_access_failure_returns_false :
    S3has (fun _ => .error ⟨"403", "AccessDenied"⟩) "docs" "k" = false := by
  decide

/-- C8 amended: `has` probes the resolved (uncollapsed) full key and is
total over client errors: it returns `true` exactly when `head_object`
succeeds and `false` on every `ClientError` — absence and access
failures alike; no client error ever propagates. -/
theorem has_total_over_client_errors (backend : String → Except ClientError Unit)
    (basePfx key : String) :
    (∀ e, backend (fullKeyOf basePfx key) = .error e → S3has backend basePfx key = false) ∧
    (∀ u, backend (fullKeyOf basePfx key) = .ok u → S3has backend basePfx key = true) := by
  constructor <;> intro x hx <;> simp [S3has, hx]

/-- Witness for C8 amended: a backend denying access yields `false`, and
a backend that succeeds yields `true`. -/
theorem has_total_over_client_errors_w :
    S3has (fun _ => .error ⟨"AccessDenied", "denied"⟩) "p" "q" = false ∧
    S3has (fun _ => .ok ()) "p" "q" = true :=
  ⟨(has_total_over_client_errors (fun _ => .error ⟨"AccessDenied", "denied"⟩) "p" "q").1
      ⟨"AccessDenied", "denied"⟩ rfl,
    (has_total_over_client_errors (fun _ => .ok ()) "p" "q").2 () rfl⟩

/-- The object body `put_object` uploads for a given `set` value: raw
bytes as-is, a `str` value encoded first. -/
def putBody (v : PutValue) (encode : String → Bytes) : Bytes :=
  match v with
  | .bytes b => b
  | .str s => encode s

/-- C1 counterexample: with `base_prefix = "docs"` and
`key = "docs/a"`, `set` uploads to `"docs/docs/a"` (no normalization)
while `get` normalizes the resolved key down to `"docs/a"` and asks the
backend there, so the round trip returns the absence marker instead of
the stored bytes. -/
theorem set_get_roundtrip_fails :
    S3get (getObject (S3set [] "docs" "docs/a" (.bytes [1]) (fun _ => [])))
        "docs" "docs/a" true (fun _ => "") = .absent ∧
    GetResult.absent ≠ .bytes [1] := by
  constructor <;> decide

/-- C1 amended: `set(k, v)` followed by `get(k)` (with `as_bytes`
matching the kind of `v` and a decoder inverting the encoder) returns
content equal to `v` — provided the duplicate-prefix normalization
performed by `get` leaves the resolved full key unchanged, i.e. the base
prefix does not occur twice in it.  When the normalization fires (the
caller's key already contains the base prefix), the round trip can miss,
as the counterexample shows. -/
theorem set_get_roundtrip (store : S3Store) (basePfx key : String) (v : PutValue)
    (encode : String → Bytes) (decode : Bytes → String)
    (hd : dedupFullKey basePfx (fullKeyOf basePfx key) = fullKeyOf basePfx key)
    (hv : ∀ s, v = .str s → decode (encode s) = s) :
    S3get (getObject (S3set store basePfx key v encode)) basePfx key
        (match v with | .bytes _ => true | .str _ => false) decode =
      (match v with | .bytes b => .bytes b | .str s => .text s) := by
  cases v with
  | bytes b => simp [S3get, hd, S3set, getObject, lookupKey]
  | str s => simp [S3get, hd, S3set, getObject, lookupKey, hv s rfl]

/-- Witness for C1 amended: a text round trip through a concrete
byte-per-char codec. -/
theorem set_get_roundtrip_w :
    S3get (getObject (S3set [] "docs" "a" (.str "hi") (fun s => s.data.map Char.toNat)))
        "docs" "a" false (fun b => ⟨b.map Char.ofNat⟩) = .text "hi" :=
  set_get_roundtrip [] "docs" "a" (.str "hi") (fun s => s.data.map Char.toNat)
    (fun b => ⟨b.map Char.ofNat⟩) (by decide)
    (by intro s hs; injection hs with h; rw [← h]; decide)

/-- C2 counterexample: the duplicate-prefix collapse is performed by
`get` alone.  With `base_prefix = "docs"` and `key = "docs/a"` the
collapsed key would be `"docs/a"`, yet `set` writes to
`"docs/docs/a"` and stores nothing under `"docs/a"` — so not every
operation performs the collapse the claim describes. -/
theorem set_does_not_collapse :
    S3set [] "docs" "docs/a" (.bytes [7]) (fun _ => []) = [("docs/docs/a", [7])] ∧
    dedupFullKey "docs" (fullKeyOf "docs" "docs/a") = "docs/a" ∧
    lookupKey (S3set [] "docs" "docs/a" (.bytes [7]) (fun _ => [])) "docs/a" = none := by
  refine ⟨by decide, by decide, by decide⟩

/-- C2 amended: every operation resolves the caller's key as
`full_key = base_prefix + "/" + key` when the prefix is non-empty, else
`key` (`fullKeyOf`); but only `get` additionally collapses a duplicated
base prefix (`dedupFullKey`) before the backend call — `set` writes at
the uncollapsed key, `has` probes it, and `delete` removes exactly it. -/
theorem op_key_resolution (basePfx key : String) :
    (∀ store v encode,
      S3set store basePfx key v encode = (fullKeyOf basePfx key, putBody v encode) :: store) ∧
    (∀ b1 b2 asBytes decode,
      b1 (dedupFullKey basePfx (fullKeyOf basePfx key)) =
          b2 (dedupFullKey basePfx (fullKeyOf basePfx key)) →
        S3get b1 basePfx key asBytes decode = S3get b2 basePfx key asBytes decode) ∧
    (∀ b1 b2, b1 (fullKeyOf basePfx key) = b2 (fullKeyOf basePfx key) →
      S3has b1 basePfx key = S3has b2 basePfx key) ∧
    (∀ store, lookupKey (S3delete store basePfx key) (fullKeyOf basePfx key) = none) ∧
    (∀ store k2, k2 ≠ fullKeyOf basePfx key →
      lookupKey (S3delete store basePfx key) k2 = lookupKey store k2) := by
  refine ⟨?_, ?_, ?_, ?_, ?_⟩
  · intro store v encode
    cases v <;> rfl
  · intro b1 b2 asBytes decode hb
    simp [S3get, hb]
  · intro b1 b2 hb
    simp [S3has, hb]
  · intro store
    induction store with
    | nil => rfl
    | cons e rest ih =>
        by_cases he : e.1 = fullKeyOf basePfx key
        · simpa [S3delete, List.filter_cons, he] using ih
        · simpa [S3delete, List.filter_cons, he, lookupKey] using ih
  · intro store k2 hk2
    induction store with
    | nil => rfl
    | cons e rest ih =>
        by_cases he : e.1 = fullKeyOf basePfx key
        · have hp : (e.1 != fullKeyOf basePfx key) = false := by simp [he]
          have hne : ¬(e.1 = k2) := fun h => hk2 (h.symm.trans he)
          rw [show S3delete (e :: rest) basePfx key = S3delete rest basePfx key from by
            simp [S3delete, List.filter_cons, hp]]
          rw [ih]
          simp [lookupKey, hne]
        · have hp : (e.1 != fullKeyOf basePfx key) = true := by simp [he]
          rw [show S3delete (e :: rest) basePfx key = e :: S3delete rest basePfx key from by
            simp [S3delete, List.filter_cons, hp]]
          by_cases hek : e.1 = k2
          · simp [lookupKey, hek]
          · simp [lookupKey, hek, ih]

/-- Witness for C2 amended: `delete` leaves a key other than the resolved
one untouched. -/
theorem op_key_resolution_w :
    lookupKey (S3delete [("x", [2])] "p" "k") "x" = some [2] :=
  (op_key_resolution "p" "k").2.2.2.2 [("x", [2])] "x" (by decide)

/-- C9: in the S3 text input `load`, a failure fetching a single file is
skippable — the entry is dropped with a warning and every remaining file
that fetches successfully appears in the result — while a client error
during bucket listing aborts the whole load with that error. -/
theorem load_partial_failures (bucket basePfx : String) (pat : KeyPattern)
    (keys : List String) (fetch : String → Option String) (e : ClientError) :
    (s3TextLoad bucket basePfx pat (.error e) fetch = .error (.client e)) ∧
    (matchedTextFiles pat keys ≠ [] →
      ∃ l, s3TextLoad bucket basePfx pat (.ok keys) fetch = .ok l ∧
        (∀ k g t, (k, g) ∈ matchedTextFiles pat keys → fetch k = some t →
          (⟨k, g, t⟩ : TextUnit) ∈ l) ∧
        (∀ u ∈ l, (u.key, u.group) ∈ matchedTextFiles pat keys ∧
          fetch u.key = some u.text)) := by
  refine ⟨rfl, ?_⟩
  intro hne
  refine ⟨(matchedTextFiles pat keys).filterMap
    (fun kg => (fetch kg.1).map (fun t => ⟨kg.1, kg.2, t⟩)), ?_, ?_, ?_⟩
  · simp only [s3TextLoad]
    rw [if_neg (by simpa using hne)]
  · intro k g t hmem hf
    rw [List.mem_filterMap]
    exact ⟨(k, g), hmem, by simp [hf]⟩
  · intro u hu
    rw [List.mem_filterMap] at hu
    obtain ⟨kg, hkg, hf⟩ := hu
    rw [Option.map_eq_some'] at hf
    obtain ⟨t, ht, hut⟩ := hf
    cases hut
    exact ⟨hkg, ht⟩

/-- Witness for C9: one file fetches, the other fails and is skipped; the
successful file is in the result. -/
theorem load_partial_failures_w :
    ∃ l, s3TextLoad "b" "p" (fun k => if k = "a.txt" then some [] else none)
        (.ok ["a.txt", "c.txt"])
        (fun k => if k = "a.txt" then some "hello" else none) = .ok l ∧
      (⟨"a.txt", [], "hello"⟩ : TextUnit) ∈ l := by
  obtain ⟨l, hl, hmem, -⟩ :=
    (load_partial_failures "b" "p" (fun k => if k = "a.txt" then some [] else none)
      ["a.txt", "c.txt"] (fun k => if k = "a.txt" then some "hello" else none)
      noSuchKeyErr).2 (by decide)
  exact ⟨l, hl, hmem "a.txt" [] "hello" (by decide) rfl⟩

/-- C10: when the listing succeeds but no object key both ends in
`".txt"` and matches the file pattern, the S3 text input `load` raises a
`ValueError` whose message names the bucket and the prefix, instead of
returning an empty result. -/
theorem load_raises_when_no_match (bucket basePfx : String) (pat : KeyPattern)
    (keys : List String) (fetch : String → Option String)
    (hnone : ∀ k ∈ keys, ¬(pyEndsWith k ".txt" = true ∧ (pat k).isSome = true)) :
    s3TextLoad bucket basePfx pat (.ok keys) fetch =
      .error (.valueErr
        ("No text files found in S3 bucket " ++ bucket ++ " with prefix " ++ basePfx)) := by
  have hfiles : matchedTextFiles pat keys = [] := by
    rw [matchedTextFiles, List.filterMap_eq_nil_iff]
    intro k hk
    by_cases he : pyEndsWith k ".txt" = true
    · rw [if_pos he]
      cases hpk : pat k with
      | none => rfl
      | some g => exact absurd ⟨he, by rw [hpk]; rfl⟩ (hnone k hk)
    · rw [if_neg he]
  simp only [s3TextLoad, hfiles]
  rfl

/-- Witness for C10: a listing whose only key matches no pattern produces
the `ValueError` naming bucket `b` and prefix `p`. -/
theorem load_raises_when_no_match_w :
    s3TextLoad "b" "p" (fun _ => none) (.ok ["a.txt"]) (fun _ => none) =
      .error (.valueErr "No text files found in S3 bucket b with prefix p") :=
  load_raises_when_no_match "b" "p" (fun _ => none) ["a.txt"] (fun _ => none) (by decide)

end GraphragS3
